import Mathlib

/-!
# Verification of the igogpt conversational driver stack

Shallow embedding of the Go sources of the `igogpt` repository and proofs
about them.  The embedding covers:

* the token-bounded conversation memory (`fixedMemory.Sum`, `Tokens`),
  including the exact Go slice semantics of `append(first, rest...)` on a
  shared backing array, which is where the interesting behaviour lives;
* the command parser and dispatcher (`Parse`, `runner.Run`,
  `runner.execute`, `fixName`);
* the real-time protocol client's request builder and message-length guard
  (`conn.getRequest`, `conn.Write`);
* the rate-limiter lock (`ratelimit.lock.LockWithDuration`) release
  semantics.

External libraries used by the Go code (the `tiktoken` tokenizer,
`encoding/json`, the random trace-id source) are not part of the repository;
they enter the embedding as explicit function parameters, so every theorem
quantifies over their behaviour unless a concrete instance is needed.
-/

namespace Igogpt

/-! ## Data model: messages (internal/memory) -/

/-- `memory.Message`: a chat message with a role and a content string. -/
structure Message where
  Role : String
  Content : String
deriving DecidableEq, Repr

/-! ## Token estimation (`Tokens` in the chatgpt package)

The Go function concatenates each message's content followed by `"\n"`,
encodes the resulting text with the external `cl100k_base` tokenizer, and
adds 8 extra tokens per message.  The tokenizer is an external library; it
is passed in as `enc : String → Nat` giving the number of token ids the
encoder produces for a text. -/

/-- `Tokens(messages)`: token estimate of a message list, parametrised by the
external encoder `enc`. -/
def TokensF (enc : String → Nat) (messages : List Message) : Nat :=
  enc (String.join (messages.map (fun m => m.Content ++ "\n"))) + messages.length * 8

/-! ## Go slice semantics needed by `fixedMemory.Sum`

`Sum` computes `first := m.messages[:keepFirst]` and repeatedly evaluates
`append(first, rest...)`.  Because `first` shares its backing array with
`m.messages` and the backing array always has enough capacity
(`keepFirst + len(rest) ≤ len(m.messages) ≤ cap`), the Go `append` does not
allocate: it copies the current values of `rest` into the backing array
right after position `keepFirst` (with `memmove` semantics: the source
values are read before being overwritten) and returns a view of the first
`keepFirst + len(rest)` elements.  `writeGo A p vals` is that in-place
write on the backing array `A`. -/

/-- Overwrite positions `p, p+1, …` of the backing array `A` with `vals`
(memmove semantics: `vals` is a value, already read out). -/
def writeGo (A : List Message) (p : Nat) (vals : List Message) : List Message :=
  A.take p ++ vals ++ A.drop (p + vals.length)

/-- Result of `fixedMemory.Sum`: a returned view, a "prompt too long" error
carrying the token count, or a Go runtime panic (`rest[1:]` on an empty
slice). -/
inductive SumResult where
  | ok (view : List Message)
  | err (tokens : Nat)
  | panic
deriving DecidableEq, Repr

/-! ## `fixedMemory.Sum`

The Go code:

```go
first := []memory.Message{}
rest := m.messages
if m.keepFirst > 0 && len(m.messages) > m.keepFirst {
    first = m.messages[:m.keepFirst]
    rest = m.messages[m.keepFirst:]
}
if m.maxTokens > 0 {
    for {
        tokens, err := Tokens(append(first, rest...))
        ...
        if tokens+1000 <= m.maxTokens { break }
        if len(rest) == 1 { return nil, fmt.Errorf("openai: prompt too long (%d tokens)", tokens) }
        rest = rest[1:]
    }
}
return append(first, rest...), nil
```

Two regimes:

* If the `keepFirst` branch is **not** taken, `first` is a fresh empty slice
  with capacity 0, so `append(first, rest...)` allocates and is a pure copy
  of `rest`; the loop is pure list recursion (`sumLoopPure`).
* If the branch **is** taken, `first` aliases the backing array of
  `m.messages` and every `append(first, rest...)` performs the in-place
  write described above (`sumLoopAlias`).  The loop state is the mutated
  backing array `A` together with the slice header of `rest`: its offset
  `j` into `A` and its length `ℓ` (invariant of the real execution:
  `j + ℓ = A.length`).
-/

/-- The pruning loop of `Sum` when `first` is the fresh empty slice
(no aliasing).  Structure mirrors the Go loop: check the budget, fail when
one message is left, panic when `rest[1:]` is taken on an empty slice. -/
def sumLoopPure (enc : String → Nat) (maxTokens : Int) : List Message → SumResult
  | [] =>
    -- `len(rest) == 1` is false for the empty slice, so `rest = rest[1:]`
    -- is evaluated and panics
    let tokens := TokensF enc []
    if (tokens : Int) + 1000 ≤ maxTokens then .ok [] else .panic
  | x :: tail =>
    let tokens := TokensF enc (x :: tail)
    if (tokens : Int) + 1000 ≤ maxTokens then .ok (x :: tail)
    else if (x :: tail).length = 1 then .err tokens
    else sumLoopPure enc maxTokens tail

/-- The pruning loop of `Sum` when `first = m.messages[:keepFirst]` aliases
the backing array `A` (the case `0 < keepFirst < len(messages)`).
`ℓ` is the current length of `rest` and `j` its offset into `A`.
Each iteration evaluates `append(first, rest...)`, i.e. writes the current
values of `rest` at position `k` of `A`, and measures the first `k + ℓ`
elements; on break the `return append(first, rest...)` performs the write a
second time on the already-mutated array.  Returns the result together with
the final backing array. -/
def sumLoopAlias (enc : String → Nat) (maxTokens : Int) (k : Nat) :
    Nat → Nat → List Message → SumResult × List Message
  | 0, j, A =>
    -- unreachable from `Sum` (the loop stops at `len(rest) == 1`); with an
    -- empty `rest` the checks fall through to the panicking `rest[1:]`
    let vals := (A.drop j).take 0
    let A1 := writeGo A k vals
    let tokens := TokensF enc (A1.take (k + 0))
    if (tokens : Int) + 1000 ≤ maxTokens then
      let A2 := writeGo A1 k ((A1.drop j).take 0)
      (.ok (A2.take (k + 0)), A2)
    else (.panic, A1)
  | ℓ' + 1, j, A =>
    let vals := (A.drop j).take (ℓ' + 1)
    let A1 := writeGo A k vals
    let tokens := TokensF enc (A1.take (k + (ℓ' + 1)))
    if (tokens : Int) + 1000 ≤ maxTokens then
      let vals2 := (A1.drop j).take (ℓ' + 1)
      let A2 := writeGo A1 k vals2
      (.ok (A2.take (k + (ℓ' + 1))), A2)
    else if ℓ' = 0 then (.err tokens, A1)
    else sumLoopAlias enc maxTokens k ℓ' (j + 1) A1

/-- `fixedMemory.Sum()`.  Inputs: the external encoder `enc`, the policy
parameters `keepFirst` and `maxTokens` (Go `int`s), and the stored message
history.  Output: the `SumResult` and the final contents of the backing
array of `m.messages` (so that mutation of the stored history is
observable). -/
def Sum (enc : String → Nat) (keepFirst maxTokens : Int)
    (messages : List Message) : SumResult × List Message :=
  if keepFirst > 0 ∧ (messages.length : Int) > keepFirst then
    let k := keepFirst.toNat
    if maxTokens > 0 then
      sumLoopAlias enc maxTokens k (messages.length - k) k messages
    else
      -- no pruning; `return append(first, rest...)` writes `rest` back at
      -- its original position, an identity write
      (.ok messages, messages)
  else
    if maxTokens > 0 then
      (sumLoopPure enc maxTokens messages, messages)
    else
      (.ok messages, messages)

/-- `fixedMemory.Add` appends a message to the stored history. -/
def Add (messages : List Message) (msg : Message) : List Message :=
  messages ++ [msg]

/-! ## Basic lemmas about the backing-array write -/

theorem writeGo_length (A : List Message) (p : Nat) (vals : List Message)
    (h : p + vals.length ≤ A.length) : (writeGo A p vals).length = A.length := by
  simp only [writeGo, List.length_append, List.length_take, List.length_drop]
  omega

theorem getLast?_drop_of_lt (A : List Message) (j : Nat) (h : j < A.length) :
    (A.drop j).getLast? = A.getLast? := by
  have hne : A.drop j ≠ [] := by
    intro hc
    have hlen := List.length_drop j A
    rw [hc] at hlen
    simp at hlen
    omega
  conv_rhs => rw [← List.take_append_drop j A]
  rw [List.getLast?_append, List.getLast?_eq_getLast _ hne]
  rfl

/-- The in-loop `append(first, rest...)` write leaves the last element of the
backing array in place: positions `≥ j + ℓ = len` are never written, and when
`k = j` the write is the identity. -/
theorem writeGo_getLast? (A : List Message) (k j ℓ : Nat)
    (hℓ : 1 ≤ ℓ) (hA : j + ℓ = A.length) (hk : k ≤ j) :
    (writeGo A k ((A.drop j).take ℓ)).getLast? = A.getLast? := by
  have hdlen : (A.drop j).length = ℓ := by rw [List.length_drop]; omega
  have hvals : (A.drop j).take ℓ = A.drop j := by
    rw [← hdlen, List.take_length]
  have hvlen : ((A.drop j).take ℓ).length = ℓ := by rw [hvals, hdlen]
  have hAx : ∃ x, A.getLast? = some x := by
    have hAne : A ≠ [] := by
      intro hc; rw [hc] at hA; simp at hA; omega
    exact ⟨A.getLast hAne, List.getLast?_eq_getLast A hAne⟩
  obtain ⟨x, hx⟩ := hAx
  have hdrop : (A.drop j).getLast? = some x := by
    rw [getLast?_drop_of_lt A j (by omega)]; exact hx
  unfold writeGo
  rw [hvlen, List.append_assoc, List.getLast?_append, List.getLast?_append, hvals, hx]
  by_cases hkl : k + ℓ < A.length
  · rw [getLast?_drop_of_lt A (k + ℓ) hkl, hx]
    rfl
  · have hdnil : A.drop (k + ℓ) = [] := List.drop_eq_nil_of_le (by omega)
    rw [hdnil]
    simp only [List.getLast?_nil, Option.none_or]
    rw [hdrop]
    rfl

/-! ## C1, C3: the `append` aliasing bug

In `Sum`, `first := m.messages[:keepFirst]` shares its backing array with
`m.messages`, so every `append(first, rest...)` after at least one pruning
step shifts the surviving suffix left inside that array, duplicating the
tail and destroying earlier messages.  Concrete run (character-count
encoder, `keepFirst = 1`, `maxTokens = 1040`):

* history `[a, b, c, d]` with contents `"a"`, `"b"`, `"c"`, `"dddddddddd"`;
* estimate of the full history is `49`, `49 + 1000 > 1040`, so `b` is
  dropped; the next in-loop `append` rewrites the backing array to
  `[a, c, d, d]` and measures `[a, c, d]` at `39`, `39 + 1000 ≤ 1040`;
* the `return append(first, rest...)` then reads `rest` from the mutated
  array (`[d, d]`) and returns `[a, d, d]`, leaving the backing array as
  `[a, d, d, d]`.
-/

/-- Concrete four-message history exhibiting the aliasing bug. -/
def aliasHistory : List Message :=
  [⟨"user", "a"⟩, ⟨"user", "b"⟩, ⟨"user", "c"⟩, ⟨"user", "dddddddddd"⟩]

/-- C1: false on the code.  For `keepFirst = 1`, `maxTokens = 1040` and the
history `aliasHistory`, at least one message fits the budget
(`Tokens([a, d]) + 1000 = 1029 ≤ 1040`), yet `Sum()` returns the view
`[a, d, d]` whose own token estimate plus the 1000-token reserve is
`1128 > maxTokens`: the `append(first, rest...)` aliasing corrupts the
returned view after the budget was measured on different contents. -/
theorem sum_returned_view_exceeds_budget :
    (TokensF String.length [⟨"user", "a"⟩, ⟨"user", "dddddddddd"⟩] : Int) + 1000 ≤ 1040
    ∧ Sum String.length 1 1040 aliasHistory
        = (.ok [⟨"user", "a"⟩, ⟨"user", "dddddddddd"⟩, ⟨"user", "dddddddddd"⟩],
           [⟨"user", "a"⟩, ⟨"user", "dddddddddd"⟩, ⟨"user", "dddddddddd"⟩,
            ⟨"user", "dddddddddd"⟩])
    ∧ ¬((TokensF String.length
          [⟨"user", "a"⟩, ⟨"user", "dddddddddd"⟩, ⟨"user", "dddddddddd"⟩] : Int)
        + 1000 ≤ 1040) := by
  refine ⟨by decide, by decide, by decide⟩

/-- C3: false on the code.  Running `Sum()` on `aliasHistory` with
`keepFirst = 1`, `maxTokens = 1040` rewrites the stored history's backing
array from `[a, b, c, d]` to `[a, d, d, d]`: the memory is mutated in
place, not merely viewed. -/
theorem sum_mutates_stored_history :
    (Sum String.length 1 1040 aliasHistory).2
      = [⟨"user", "a"⟩, ⟨"user", "dddddddddd"⟩, ⟨"user", "dddddddddd"⟩,
         ⟨"user", "dddddddddd"⟩]
    ∧ (Sum String.length 1 1040 aliasHistory).2 ≠ aliasHistory := by
  refine ⟨by decide, by decide⟩

/-- C10: with an empty history and `0 < maxTokens < 1000`, the token
estimate of the empty context is `enc("")` and the budget check
`tokens + 1000 ≤ maxTokens` fails, but `len(rest) == 1` is also false, so
the loop evaluates `rest[1:]` on the empty slice and panics. -/
theorem sum_empty_history_panics (enc : String → Nat) (keepFirst maxTokens : Int)
    (h0 : 0 < maxTokens) (h1 : maxTokens < 1000) :
    Sum enc keepFirst maxTokens [] = (.panic, []) := by
  unfold Sum
  have hbr : ¬(keepFirst > 0 ∧ (([] : List Message).length : Int) > keepFirst) := by
    rintro ⟨hk, hl⟩
    simp at hl
    omega
  rw [if_neg hbr, if_pos h0]
  unfold sumLoopPure
  have hno : ¬((TokensF enc [] : Int) + 1000 ≤ maxTokens) := by
    have : (0 : Int) ≤ (TokensF enc [] : Int) := Int.natCast_nonneg _
    omega
  rw [if_neg hno]

/-- Witness for C10 at a concrete input: encoder returning 0 tokens,
`keepFirst = 0`, `maxTokens = 500`. -/
theorem sum_empty_history_panics_witness :
    Sum (fun _ => 0) 0 500 [] = (.panic, []) :=
  sum_empty_history_panics (fun _ => 0) 0 500 (by decide) (by decide)

/-! ## C2: the "prompt too long" error path -/

/-- In the non-aliasing regime, if every suffix of the history exceeds the
budget, the loop prunes down to the final message and fails with the token
count of that one-message context. -/
theorem sumLoopPure_err (enc : String → Nat) (maxTokens : Int) (msgs : List Message) :
    ∀ (hne : msgs ≠ []),
      (∀ i, i < msgs.length → maxTokens < (TokensF enc (msgs.drop i) : Int) + 1000) →
      sumLoopPure enc maxTokens msgs = .err (TokensF enc [msgs.getLast hne]) := by
  induction msgs with
  | nil => intro hne _; exact absurd rfl hne
  | cons x tail ih =>
    intro hne h
    have h0 := h 0 (by simp)
    rw [List.drop_zero] at h0
    simp only [sumLoopPure]
    rw [if_neg (by omega)]
    cases tail with
    | nil =>
      rw [if_pos (by simp)]
      rfl
    | cons y tl =>
      rw [if_neg (by simp)]
      have htail := ih (by simp) (fun i hi => by
        have := h (i + 1) (by simpa using hi)
        simpa [List.drop_succ_cons] using this)
      rw [htail]
      have hg : (x :: y :: tl).getLast hne = (y :: tl).getLast (by simp) :=
        List.getLast_cons (by simp)
      rw [hg]

/-- In the non-aliasing regime, a successful `Sum` never returns an empty
context and never drops the trailing message. -/
theorem sumLoopPure_ok (enc : String → Nat) (maxTokens : Int) (msgs : List Message) :
    ∀ out, msgs ≠ [] → sumLoopPure enc maxTokens msgs = .ok out →
      out ≠ [] ∧ out.getLast? = msgs.getLast? := by
  induction msgs with
  | nil => intro out hne _; exact absurd rfl hne
  | cons x tail ih =>
    intro out _ hrun
    simp only [sumLoopPure] at hrun
    by_cases hfit : (TokensF enc (x :: tail) : Int) + 1000 ≤ maxTokens
    · rw [if_pos hfit] at hrun
      cases hrun
      exact ⟨by simp, rfl⟩
    · rw [if_neg hfit] at hrun
      by_cases hlen : (x :: tail).length = 1
      · rw [if_pos hlen] at hrun
        exact absurd hrun (by simp)
      · rw [if_neg hlen] at hrun
        have htne : tail ≠ [] := by
          cases tail
          · simp at hlen
          · simp
        obtain ⟨h1, h2⟩ := ih out htne hrun
        refine ⟨h1, ?_⟩
        rw [h2]
        cases tail with
        | nil => exact absurd rfl htne
        | cons y tl => rw [List.getLast?_cons_cons]

/-- In the aliasing regime, a successful `Sum` never returns an empty view
and the view always ends with the last stored message (positions at and
beyond the end of `rest` are never overwritten). -/
theorem sumLoopAlias_ok (enc : String → Nat) (maxTokens : Int) (k : Nat) :
    ∀ (ℓ j : Nat) (A out A2 : List Message),
      1 ≤ ℓ → j + ℓ = A.length → k ≤ j →
      sumLoopAlias enc maxTokens k ℓ j A = (.ok out, A2) →
      out ≠ [] ∧ out.getLast? = A.getLast? := by
  intro ℓ
  induction ℓ with
  | zero => intro j A out A2 h1 _ _ _; omega
  | succ ℓ' ih =>
    intro j A out A2 _ hA hk hrun
    simp only [sumLoopAlias] at hrun
    have hklen : k + (ℓ' + 1) ≤ A.length := by omega
    have hvlen : ((A.drop j).take (ℓ' + 1)).length = ℓ' + 1 := by
      simp only [List.length_take, List.length_drop]
      omega
    have hA1len : (writeGo A k ((A.drop j).take (ℓ' + 1))).length = A.length := by
      rw [writeGo_length _ _ _ (by omega)]
    have hA1last : (writeGo A k ((A.drop j).take (ℓ' + 1))).getLast? = A.getLast? :=
      writeGo_getLast? A k j (ℓ' + 1) (by omega) hA hk
    set A1 := writeGo A k ((A.drop j).take (ℓ' + 1)) with hA1
    by_cases hfit :
        (TokensF enc (A1.take (k + (ℓ' + 1))) : Int) + 1000 ≤ maxTokens
    · rw [if_pos hfit] at hrun
      have hv2 : (A1.drop j).take (ℓ' + 1) = A1.drop j := by
        apply List.take_of_length_le
        rw [List.length_drop, hA1len]
        omega
      have hv2len : (A1.drop j).length = ℓ' + 1 := by
        rw [List.length_drop, hA1len]; omega
      have htake : (writeGo A1 k ((A1.drop j).take (ℓ' + 1))).take (k + (ℓ' + 1))
          = A1.take k ++ A1.drop j := by
        rw [hv2]
        unfold writeGo
        apply List.take_left'
        rw [List.length_append, List.length_take, hv2len, hA1len]
        omega
      rw [Prod.mk.injEq] at hrun
      obtain ⟨hfst, _⟩ := hrun
      rw [htake] at hfst
      injection hfst with hout'
      have hout : out = A1.take k ++ A1.drop j := hout'.symm
      constructor
      · rw [hout]
        apply List.ne_nil_of_length_pos
        rw [List.length_append, List.length_drop, hA1len]
        omega
      · rw [hout, List.getLast?_append, getLast?_drop_of_lt A1 j (by omega), hA1last]
        have hAne : A ≠ [] := by
          apply List.ne_nil_of_length_pos
          omega
        rw [List.getLast?_eq_getLast A hAne]
        rfl
    · rw [if_neg hfit] at hrun
      by_cases hz : ℓ' = 0
      · rw [if_pos hz] at hrun
        exact absurd (congrArg Prod.fst hrun) (by simp)
      · rw [if_neg hz] at hrun
        have := ih (j + 1) A1 out A2 (by omega) (by omega) (by omega) hrun
        rw [hA1last] at this
        exact this

/-- C2: with `maxTokens > 0`, (i) in the non-aliasing regime
(`first` empty), a nonempty history all of whose suffixes exceed the budget
makes `Sum()` fail with a "prompt too long" error carrying the token count
of the kept one-message context, with the history intact; (ii) in the
aliasing regime, once the pruning loop has reduced `rest` to exactly one
message (necessarily the last stored message) and the budget is still
exceeded, the loop returns the error carrying the token count of
`first ++ [last]`; (iii) `Sum()` never silently truncates: any
successfully returned view is nonempty and still ends with the last stored
message. -/
theorem sum_prompt_too_long (enc : String → Nat) (keepFirst maxTokens : Int)
    (hmax : 0 < maxTokens) :
    (∀ (messages : List Message) (hne : messages ≠ []),
        ¬(keepFirst > 0 ∧ (messages.length : Int) > keepFirst) →
        (∀ i, i < messages.length →
            maxTokens < (TokensF enc (messages.drop i) : Int) + 1000) →
        Sum enc keepFirst maxTokens messages
          = (.err (TokensF enc [messages.getLast hne]), messages))
    ∧ (∀ (k j : Nat) (A : List Message) (x : Message),
        A.getLast? = some x → j + 1 = A.length → k ≤ j →
        maxTokens < (TokensF enc (A.take k ++ [x]) : Int) + 1000 →
        sumLoopAlias enc maxTokens k 1 j A
          = (.err (TokensF enc (A.take k ++ [x])), A.take k ++ [x] ++ A.drop (k + 1)))
    ∧ (∀ (messages out A2 : List Message), messages ≠ [] →
        Sum enc keepFirst maxTokens messages = (.ok out, A2) →
        out ≠ [] ∧ out.getLast? = messages.getLast?) := by
  refine ⟨?_, ?_, ?_⟩
  · intro messages hne hbr h
    unfold Sum
    rw [if_neg hbr, if_pos hmax, sumLoopPure_err enc maxTokens messages hne h]
  · intro k j A x hx hj hk hexceed
    have hone : (1 : Nat) = 0 + 1 := rfl
    rw [hone]
    simp only [sumLoopAlias]
    have hdrop : A.drop j = [x] := by
      have hdlen : (A.drop j).length = 1 := by rw [List.length_drop]; omega
      obtain ⟨a, ha⟩ := List.length_eq_one.mp hdlen
      have := getLast?_drop_of_lt A j (by omega)
      rw [ha, hx] at this
      simp at this
      rw [ha, this]
    have hvals : (A.drop j).take (0 + 1) = [x] := by rw [hdrop]; rfl
    rw [hvals]
    have hwrite : writeGo A k [x] = A.take k ++ [x] ++ A.drop (k + 1) := rfl
    have htake : (writeGo A k [x]).take (k + (0 + 1)) = A.take k ++ [x] := by
      rw [hwrite]
      apply List.take_left'
      simp only [List.length_append, List.length_take, List.length_cons,
        List.length_nil]
      omega
    rw [htake]
    rw [if_neg (by omega), if_pos trivial, hwrite]
  · intro messages out A2 hne hrun
    unfold Sum at hrun
    by_cases hbr : keepFirst > 0 ∧ (messages.length : Int) > keepFirst
    · rw [if_pos hbr, if_pos hmax] at hrun
      have hklt : keepFirst.toNat < messages.length := by
        obtain ⟨h1, h2⟩ := hbr
        omega
      refine sumLoopAlias_ok enc maxTokens keepFirst.toNat
        (messages.length - keepFirst.toNat) keepFirst.toNat messages out A2
        (by omega) (by omega) (by omega) hrun
    · rw [if_neg hbr, if_pos hmax] at hrun
      have hfst := congrArg Prod.fst hrun
      simp only at hfst
      exact sumLoopPure_ok enc maxTokens messages out hne hfst

/-- Witness for C2: (i) a one-message history over budget at
`maxTokens = 1` fails with the "prompt too long" token count; (ii) the
aliasing loop at a one-message `rest` over budget fails likewise; (iii) a
successful `Sum` at `maxTokens = 2000` keeps the last message. -/
theorem sum_prompt_too_long_witness :
    Sum (fun _ => 0) 0 1 [⟨"user", "hi"⟩]
      = (.err (TokensF (fun _ => 0) [⟨"user", "hi"⟩]), [⟨"user", "hi"⟩])
    ∧ sumLoopAlias (fun _ => 0) 1 1 1 1 [⟨"sys", "s"⟩, ⟨"user", "hi"⟩]
      = (.err (TokensF (fun _ => 0) [⟨"sys", "s"⟩, ⟨"user", "hi"⟩]),
         [⟨"sys", "s"⟩, ⟨"user", "hi"⟩])
    ∧ (([⟨"user", "hi"⟩] : List Message) ≠ []
        ∧ ([⟨"user", "hi"⟩] : List Message).getLast? = some ⟨"user", "hi"⟩) := by
  refine ⟨?_, ?_, ?_⟩
  · exact (sum_prompt_too_long (fun _ => 0) 0 1 (by decide)).1
      [⟨"user", "hi"⟩] (by simp) (by decide)
      (by intro i hi
          have hi0 : i = 0 := by simpa using hi
          subst hi0
          decide)
  · have h := (sum_prompt_too_long (fun _ => 0) 0 1 (by decide)).2.1
      1 1 [⟨"sys", "s"⟩, ⟨"user", "hi"⟩] ⟨"user", "hi"⟩ rfl rfl (by omega) (by decide)
    simpa using h
  · have h := (sum_prompt_too_long (fun _ => 0) 0 2000 (by decide)).2.2
      [⟨"user", "hi"⟩] [⟨"user", "hi"⟩] [⟨"user", "hi"⟩] (by simp) (by decide)
    exact ⟨h.1, h.2.trans rfl⟩

/-! ## Command parser and dispatcher (internal/command)

`encoding/json` is an external library; its two uses in `Parse` enter the
embedding as parameters:

* `uarr : String → Except String (List (List (String × Json)))` models
  `json.Unmarshal` into `[]map[string]any` (an error carries the decoder's
  message; a decoded object is a key/value list — the claims only involve
  single-key objects, for which Go's map iteration order is determinate);
* `uobj : String → Option (List (String × Json))` models `json.Unmarshal`
  of one candidate object in the regex fallback (its error message is
  discarded by the Go code, hence `Option`).
-/

/-- Go's `any` values produced by JSON decoding, as far as the command layer
inspects them (numbers are `float64` in Go; the claims never involve
numeric arguments, so an integer carrier suffices here). -/
inductive Json where
  | null
  | bool (b : Bool)
  | num (n : Int)
  | str (s : String)
  | arr (xs : List Json)
  | obj (fields : List (String × Json))

/-- `command.CommandRequest`. -/
structure CommandRequest where
  name : String
  args : List Json

/-- The value-to-args coercion in `Parse`: an array is kept, any other value
is wrapped as a one-element argument list. -/
def coerceArgs : Json → List Json
  | .arr xs => xs
  | v => [v]

/-- The nested conversion loop at the end of `Parse`: one `CommandRequest`
per key of each decoded object, in order. -/
def toReqs (arr : List (List (String × Json))) : List CommandRequest :=
  arr.flatMap (fun o => o.map (fun kv => ⟨kv.1, coerceArgs kv.2⟩))

/-- Index of the first occurrence of `c` (Go `strings.Index`; byte vs rune
indexing coincide for the extraction of the bracketed span). -/
def firstIdx? (c : Char) : List Char → Option Nat
  | [] => none
  | x :: r => if x = c then some 0 else (firstIdx? c r).map (· + 1)

/-- Index of the last occurrence of `c` (Go `strings.LastIndex`). -/
def lastIdx? (c : Char) (cs : List Char) : Option Nat :=
  (firstIdx? c cs.reverse).map (fun i => cs.length - 1 - i)

/-- Scanner for the lazy regex body `.*?\}`: consume characters (never a
newline, which `.` does not match) up to the first `}` and return the body
and the remaining input, or fail. -/
def scanClose : List Char → Option (List Char × List Char)
  | [] => none
  | c :: r =>
    if c = '}' then some ([], r)
    else if c = '\n' then none
    else (scanClose r).map (fun p => (c :: p.1, p.2))

/-- Recursion core of `findObjs`.  The fuel argument only serves structural
termination: every step consumes at least one character of the input, so
starting the fuel at the input length never exhausts it. -/
def findObjsGo : Nat → List Char → List String
  | 0, _ => []
  | _, [] => []
  | fuel + 1, c :: r =>
    if c = '{' then
      match scanClose r with
      | some (b, r2) => String.mk ('{' :: (b ++ ['}'])) :: findObjsGo fuel r2
      | none => findObjsGo fuel r
    else findObjsGo fuel r

/-- `regexp.MustCompile('(\{.*?\})').FindAllString(m, -1)`: leftmost,
non-overlapping, lazy matches from each `{` to the nearest following `}`
with no intervening newline. -/
def findObjs (cs : List Char) : List String :=
  findObjsGo cs.length cs

/-- Outcome of `Parse`: requests, a Go error, or a runtime panic
(`text[startIdx:endIdx+1]` with `startIdx > endIdx+1`). -/
inductive PResult where
  | ok (reqs : List CommandRequest)
  | err (msg : String)
  | panic

/-- Locating the candidate span `text[startIdx : endIdx+1]` between the
first `[` and the last `]`. -/
inductive SpanResult where
  | notFound
  | panic
  | span (s : String)
deriving DecidableEq, Repr

def findSpan (text : String) : SpanResult :=
  match firstIdx? '[' text.toList, lastIdx? ']' text.toList with
  | none, _ => .notFound
  | some _, none => .notFound
  | some s, some e =>
    if e + 1 < s then .panic
    else .span (String.mk ((text.toList.drop s).take (e + 1 - s)))

/-- The regex fallback of `Parse`: collect `{...}` matches, decode each
independently, drop failures; if no match or no decodable object, return
the original unmarshal error. -/
def parseFallback (uobj : String → Option (List (String × Json)))
    (m jerr : String) : PResult :=
  let errMsg := "couldn't unmarshal json array (" ++ m ++ "): " ++ jerr
  let ms := findObjs m.toList
  if ms.isEmpty then .err errMsg
  else
    let arr := ms.filterMap uobj
    if arr.isEmpty then .err errMsg
    else .ok (toReqs arr)

/-- `command.Parse`. -/
def Parse (uarr : String → Except String (List (List (String × Json))))
    (uobj : String → Option (List (String × Json))) (text : String) : PResult :=
  match findSpan text with
  | .notFound => .err ("no json array found: " ++ text)
  | .panic => .panic
  | .span m =>
    match uarr m with
    | .ok arr => .ok (toReqs arr)
    | .error jerr => parseFallback uobj m jerr

/-- `unicode.IsSpace` on the Latin-1 range, as used by
`strings.TrimSpace`. -/
def isGoSpace (c : Char) : Bool :=
  c == ' ' || c == '\t' || c == '\n' || c == '\x0B' || c == '\x0C'
    || c == '\r' || c == '\x85' || c == '\xA0'

/-- `strings.TrimSpace`: drop leading and trailing white space. -/
def trimGo (s : String) : String :=
  String.mk (((s.toList.dropWhile isGoSpace).reverse.dropWhile isGoSpace).reverse)

/-- `strings.ToLower` (ASCII range; Go also lowers non-ASCII letters, which
no registered command name contains). -/
def toLowerGo (s : String) : String :=
  String.mk (s.toList.map Char.toLower)

/-- `strings.ReplaceAll` for a single-character pattern. -/
def replaceCharGo (c r : Char) (s : String) : String :=
  String.mk (s.toList.map (fun x => if x = c then r else x))

/-- `command.fixName`: trim, lower-case, map `-` and spaces to `_`, then
the long-form file-command alias table. -/
def fixName (name : String) : String :=
  let n := replaceCharGo ' ' '_' (replaceCharGo '-' '_' (toLowerGo (trimGo name)))
  if n = "write_file" then "write"
  else if n = "read_file" then "read"
  else if n = "delete_file" then "delete"
  else if n = "list_files" then "list"
  else n

/-- The keys of the command registry built by `command.New`. -/
def registryNames : List String :=
  ["bash", "bing", "google", "web", "talk", "think",
   "read", "write", "delete", "list", "exit"]

/-- `runner.execute`.  Handlers perform I/O; their behaviour is the
parameter `run` (`none` models a Go `nil` result, which is skipped).
Besides the aggregated result list, the model returns the trace of handler
invocations actually performed, in order. -/
def execute (known : List String) (run : String → List Json → Option Json) :
    List CommandRequest → List (List (String × Json)) × List (String × List Json)
  | [] => ([], [])
  | req :: rest =>
    let name := fixName req.name
    if known.contains name then
      let (rs, tr) := execute known run rest
      match run name req.args with
      | none => (rs, (name, req.args) :: tr)
      | some v => ([(name, v)] :: rs, (name, req.args) :: tr)
    else execute known run rest

/-- Outcome of `runner.Run`: the aggregated results plus the trace of
executed handlers, or a propagated panic from `Parse`. -/
inductive RunResult where
  | panic
  | results (out : List (List (String × Json))) (trace : List (String × List Json))

/-- `runner.Run`: parse, and on failure report the synthetic
`{error: message}` result (the debug-file write is an I/O side effect with
no bearing on the returned value); on success dispatch through `execute`
with the registry built by `command.New`. -/
def Run (uarr : String → Except String (List (List (String × Json))))
    (uobj : String → Option (List (String × Json)))
    (run : String → List Json → Option Json) (text : String) : RunResult :=
  match Parse uarr uobj text with
  | .panic => .panic
  | .err msg =>
    .results [[("error", .str ("couldn't parse commands: " ++ msg))]] []
  | .ok reqs =>
    let (res, tr) := execute registryNames run reqs
    .results res tr

/-- C4: whenever `Parse` fails, `runner.Run` executes no command handler
(empty trace) and returns exactly the one-element result list
`[{error: message}]` carrying the parse-error message. -/
theorem run_parse_failure_reports_error
    (uarr : String → Except String (List (List (String × Json))))
    (uobj : String → Option (List (String × Json)))
    (run : String → List Json → Option Json) (text msg : String)
    (h : Parse uarr uobj text = .err msg) :
    Run uarr uobj run text
      = .results [[("error", .str ("couldn't parse commands: " ++ msg))]] [] := by
  unfold Run
  rw [h]

/-- Witness for C4: the text `"hello"` contains no bracketed array, so
`Parse` fails and `Run` reports the synthetic error result. -/
theorem run_parse_failure_reports_error_witness :
    Run (fun _ => .error "e") (fun _ => none) (fun _ _ => none) "hello"
      = .results
          [[("error", .str "couldn't parse commands: no json array found: hello")]]
          [] :=
  run_parse_failure_reports_error (fun _ => .error "e") (fun _ => none)
    (fun _ _ => none) "hello" "no json array found: hello" rfl

/-- Reduction of `Parse` once the bracketed span is located. -/
theorem Parse_span (uarr : String → Except String (List (List (String × Json))))
    (uobj : String → Option (List (String × Json))) (text m : String)
    (h : findSpan text = .span m) :
    Parse uarr uobj text
      = (match uarr m with
         | .ok arr => .ok (toReqs arr)
         | .error jerr => parseFallback uobj m jerr) := by
  unfold Parse
  rw [h]

/-- C5: on `'[{"talk":"blah"}] [{"talk":"blah"}]'` the span from the first
`[` to the last `]` is the whole text, which `json.Unmarshal` rejects
(trailing data after the first array); the regex fallback finds the two
`{"talk":"blah"}` objects in order, each decodes to a single-key object,
and `Parse` returns the two `talk` requests with the bare string argument
wrapped in a one-element list. -/
theorem parse_two_separated_arrays
    (uarr : String → Except String (List (List (String × Json))))
    (uobj : String → Option (List (String × Json))) (jerr : String)
    (h1 : uarr "[\x7b\"talk\":\"blah\"\x7d] [\x7b\"talk\":\"blah\"\x7d]" = .error jerr)
    (h2 : uobj "\x7b\"talk\":\"blah\"\x7d" = some [("talk", Json.str "blah")]) :
    Parse uarr uobj "[\x7b\"talk\":\"blah\"\x7d] [\x7b\"talk\":\"blah\"\x7d]"
      = .ok [⟨"talk", [Json.str "blah"]⟩, ⟨"talk", [Json.str "blah"]⟩] := by
  rw [Parse_span uarr uobj _ _
    (show findSpan "[\x7b\"talk\":\"blah\"\x7d] [\x7b\"talk\":\"blah\"\x7d]"
        = .span "[\x7b\"talk\":\"blah\"\x7d] [\x7b\"talk\":\"blah\"\x7d]" from rfl), h1]
  unfold parseFallback
  rw [show findObjs "[\x7b\"talk\":\"blah\"\x7d] [\x7b\"talk\":\"blah\"\x7d]".toList
      = ["\x7b\"talk\":\"blah\"\x7d", "\x7b\"talk\":\"blah\"\x7d"] from rfl]
  simp only [List.isEmpty_cons, List.filterMap_cons, h2, List.filterMap_nil,
    Bool.false_eq_true, if_false]
  rfl

/-- Witness for C5 with a concrete decoder behaving like `encoding/json`
on the two strings the theorem mentions. -/
theorem parse_two_separated_arrays_witness :
    Parse (fun _ => .error "invalid character after top-level value")
      (fun s => if s = "\x7b\"talk\":\"blah\"\x7d"
        then some [("talk", Json.str "blah")] else none)
      "[\x7b\"talk\":\"blah\"\x7d] [\x7b\"talk\":\"blah\"\x7d]"
      = .ok [⟨"talk", [Json.str "blah"]⟩, ⟨"talk", [Json.str "blah"]⟩] :=
  parse_two_separated_arrays _ _ "invalid character after top-level value"
    rfl (by simp)

/-- C6: a request whose normalized name is not a key of the registry built
by `command.New` is skipped: it produces no result (in particular no error
result), executes no handler, and the remaining requests of the batch are
dispatched exactly as if it were absent. -/
theorem execute_skips_unknown_command
    (run : String → List Json → Option Json) (reqs : List CommandRequest)
    (req : CommandRequest)
    (h : registryNames.contains (fixName req.name) = false) :
    execute registryNames run (req :: reqs) = execute registryNames run reqs := by
  simp only [execute, h, Bool.false_eq_true, if_false]

/-- Witness for C6: the unknown command `frobnicate` is dropped while the
following `talk` request is still dispatched. -/
theorem execute_skips_unknown_command_witness :
    registryNames.contains (fixName "frobnicate") = false
    ∧ execute registryNames (fun _ _ => some (Json.str "r"))
        [⟨"frobnicate", []⟩, ⟨"talk", []⟩]
      = execute registryNames (fun _ _ => some (Json.str "r")) [⟨"talk", []⟩] :=
  ⟨rfl, execute_skips_unknown_command (fun _ _ => some (Json.str "r"))
    [⟨"talk", []⟩] ⟨"frobnicate", []⟩ rfl⟩

/-! ## Protocol client (pkg bing)

`conn.getRequest` builds the chat frame; the random 16-byte trace id comes
from `crypto/rand` and is a parameter here.  The frame is modelled by the
structures below, field for field (`optionsSets` uses the `styleBalanced`
constant `"galileo"` selected in the source). -/

structure Conversation where
  ConversationId : String
  ClientId : String
  ConversationSignature : String
deriving DecidableEq, Repr

structure BingChatMessage where
  author : String
  inputMethod : String
  text : String
  messageType : String
deriving DecidableEq, Repr

structure BingArgument where
  source : String
  optionsSets : List String
  sliceIds : List String
  traceId : String
  isStartOfSession : Bool
  message : BingChatMessage
  conversationSignature : String
  participantId : String
  conversationId : String
deriving DecidableEq, Repr

structure BingRequest where
  invocationId : String
  target : String
  type : Nat
  arguments : List BingArgument
deriving DecidableEq, Repr

/-- Go `string(rune(n))` for a non-negative `n`: the string of the single
code point `n`, or U+FFFD when `n` is not a valid code point.  This is a
rune conversion, not decimal formatting. -/
def goStringOfRune (n : Nat) : String :=
  if n < 0xD800 ∨ (0xE000 ≤ n ∧ n < 0x110000) then String.singleton (Char.ofNat n)
  else "�"

/-- `conn.getRequest`: builds the chat frame from the connection state and
increments the invocation counter (returned as second component). -/
def getRequest (conv : Conversation) (invocationID : Nat)
    (traceId message : String) : BingRequest × Nat :=
  ({ invocationId := goStringOfRune invocationID
     target := "chat"
     type := 4
     arguments := [{
       source := "cib"
       optionsSets := ["nlu_direct_response_filter", "deepleo",
         "disable_emoji_spoken_text", "responsible_ai_policy_235", "enablemm",
         "galileo", "dtappid", "cricinfo", "cricinfov2", "dv3sugg"]
       sliceIds := ["222dtappid", "225cricinfo", "224locals0"]
       traceId := traceId
       isStartOfSession := invocationID == 0
       message := { author := "user", inputMethod := "Keyboard",
                    text := message, messageType := "Chat" }
       conversationSignature := conv.ConversationSignature
       participantId := conv.ClientId
       conversationId := conv.ConversationId }] },
   invocationID + 1)

/-- C7: false on the code.  The `invocationId` field is built with
`string(rune(c.invocationID))`, so the frames for invocation counters 0 and
1 carry the one-code-point strings U+0000 and U+0001, not the decimal
strings `"0"` and `"1"`.  The accompanying clauses do hold: the counter is
incremented by one per message and `isStartOfSession` is true exactly for
counter 0. -/
theorem getRequest_invocation_id_not_decimal :
    ((getRequest ⟨"cid", "clid", "sig"⟩ 0 "tr" "hello").1.invocationId = "\x00"
      ∧ "\x00" ≠ "0")
    ∧ (getRequest ⟨"cid", "clid", "sig"⟩ 0 "tr" "hello").1.arguments.map
        (fun a => a.isStartOfSession) = [true]
    ∧ (getRequest ⟨"cid", "clid", "sig"⟩ 0 "tr" "hello").2 = 1
    ∧ ((getRequest ⟨"cid", "clid", "sig"⟩ 1 "tr" "hi").1.invocationId = "\x01"
      ∧ "\x01" ≠ "1")
    ∧ (getRequest ⟨"cid", "clid", "sig"⟩ 1 "tr" "hi").1.arguments.map
        (fun a => a.isStartOfSession) = [false] := by
  refine ⟨⟨by decide, by decide⟩, by decide, rfl, ⟨by decide, by decide⟩, by decide⟩

/-- Connection state observable by the message-length guard. -/
structure Conn where
  invocationID : Nat
  conversation : Conversation
deriving DecidableEq, Repr

/-- Externally visible actions of a `conn.Write` round trip. -/
inductive WriteEffect where
  | acquireRateLimit
  | sendFrame (frame : BingRequest)
deriving DecidableEq, Repr

/-- `conn.Write`: the guard `len(message) > 2000` (UTF-8 byte length of the
Go string) runs before `c.rateLimit.Lock` and before any socket activity.
The rest of the round trip (rate-limit wait, websocket send, worker
aggregation) is external I/O, abstracted as `rest`; the reject path
returns `(0, error)` with the state unchanged and no effects performed. -/
def Write (rest : Conn → String → (Nat × Option String) × Conn × List WriteEffect)
    (c : Conn) (message : String) :
    (Nat × Option String) × Conn × List WriteEffect :=
  if message.utf8ByteSize > 2000 then
    ((0, some "bing: message very long, max: 2000"), c, [])
  else rest c message

theorem length_le_utf8ByteSize (s : String) : s.length ≤ s.utf8ByteSize := by
  cases s with
  | mk data =>
    show data.length ≤ String.utf8ByteSize.go data
    induction data with
    | nil => simp [String.utf8ByteSize.go]
    | cons c cs ih =>
      have := Char.utf8Size_pos c
      simp only [List.length_cons, String.utf8ByteSize.go]
      omega

/-- C8: a message longer than 2000 characters is rejected locally: `Write`
returns `(0, error)` without acquiring the rate-limit gate, without any
socket send, and with the connection state unchanged.  (The Go guard
counts UTF-8 bytes; a string of more than 2000 characters always has more
than 2000 bytes.) -/
theorem write_rejects_long_message
    (rest : Conn → String → (Nat × Option String) × Conn × List WriteEffect)
    (c : Conn) (message : String) (h : 2000 < message.length) :
    Write rest c message = ((0, some "bing: message very long, max: 2000"), c, []) := by
  unfold Write
  rw [if_pos (lt_of_lt_of_le h (length_le_utf8ByteSize message))]

/-- Witness for C8: a 2001-character message on a fresh connection. -/
theorem write_rejects_long_message_witness :
    Write (fun c m => ((m.utf8ByteSize, none), c, [.acquireRateLimit]))
        ⟨0, ⟨"cid", "clid", "sig"⟩⟩ (String.mk (List.replicate 2001 'a'))
      = ((0, some "bing: message very long, max: 2000"),
         ⟨0, ⟨"cid", "clid", "sig"⟩⟩, []) :=
  write_rejects_long_message _ _ _
    (by
      have h1 : (String.mk (List.replicate 2001 'a')).length = 2001 := by
        show (List.replicate 2001 'a').length = 2001
        rw [List.length_replicate]
      omega)

/-! ## Rate limiter (internal ratelimit)

`lock.LockWithDuration` acquires a `sync.Mutex`, computes the jittered
cooldown `d' = d * (0.85 + rand*0.3)` (a float computation on external
randomness; `d` below stands for the already-jittered duration) and returns
a closure that waits on `select { case <-ctx.Done(); case <-time.After(d) }`
and then, deferred, unlocks the mutex.  Time is modelled by instants
(`Nat`); a context cancelled at instant `tc` makes `ctx.Done()` ready at
`max t0 tc` for a wait starting at `t0`, and `time.After(d)` is ready at
`t0 + d`; the `select` fires at the earlier instant. -/

structure Gate where
  locked : Bool
deriving DecidableEq, Repr

/-- `sync.Mutex.Lock`: succeeds only while nobody holds the gate (so two
concurrent holders are impossible). -/
def acquire (g : Gate) : Option Gate :=
  if g.locked then none else some { locked := true }

/-- The instant the release closure's `select` fires. -/
def releaseFireTime (t0 : Nat) (cancelAt : Option Nat) (d : Nat) : Nat :=
  match cancelAt with
  | some tc => min (max t0 tc) (t0 + d)
  | none => t0 + d

/-- The release closure returned by `lock.LockWithDuration`, invoked at
instant `t0`: wait for the `select`, then (deferred) unlock.  Returns the
completion instant and the resulting gate state. -/
def release (g : Gate) (t0 : Nat) (cancelAt : Option Nat) (d : Nat) : Nat × Gate :=
  (releaseFireTime t0 cancelAt d, { locked := false })

/-- C9: invoking the release closure with an already-cancelled context
returns at the invocation instant itself — no part of the cooldown is
waited out — and the deferred unlock still runs, so a subsequent `Acquire`
succeeds; a cancellation arriving during the cooldown likewise ends the
wait at the cancellation instant; and the gate never admits a second
holder while held. -/
theorem release_with_cancelled_ctx_unlocks (g : Gate) (t0 d tc : Nat)
    (hc : tc ≤ t0) :
    (release g t0 (some tc) d).1 = t0
    ∧ (release g t0 (some tc) d).2.locked = false
    ∧ acquire (release g t0 (some tc) d).2 = some { locked := true }
    ∧ (∀ tc2, t0 ≤ tc2 → tc2 ≤ t0 + d → (release g t0 (some tc2) d).1 = tc2)
    ∧ acquire { locked := true } = none := by
  refine ⟨?_, rfl, rfl, ?_, rfl⟩
  · simp only [release, releaseFireTime]
    omega
  · intro tc2 h1 h2
    simp only [release, releaseFireTime]
    omega

/-- Witness for C9: release invoked at instant 10 with a context cancelled
at instant 5 (cooldown 7) completes at 10; with cancellation at instant 15
it completes at 15. -/
theorem release_with_cancelled_ctx_unlocks_witness :
    (release ⟨true⟩ 10 (some 5) 7).1 = 10
    ∧ acquire (release ⟨true⟩ 10 (some 5) 7).2 = some ⟨true⟩
    ∧ (release ⟨true⟩ 10 (some 15) 7).1 = 15 :=
  ⟨(release_with_cancelled_ctx_unlocks ⟨true⟩ 10 7 5 (by decide)).1,
   (release_with_cancelled_ctx_unlocks ⟨true⟩ 10 7 5 (by decide)).2.2.1,
   (release_with_cancelled_ctx_unlocks ⟨true⟩ 10 7 5 (by decide)).2.2.2.1 15
     (by decide) (by decide)⟩

end Igogpt
